import Mathlib

/-
Verification of the HTML-to-Markdown scraper (scrape_v6.py) against its
specification.  Strings are modelled as lists of characters; the byte-level
sanitizer treats bytes as characters, which is faithful for the ASCII markers
it searches for.  Regular-expression substitutions are modelled by explicit
scanners with the same leftmost, greedy, non-overlapping semantics.
-/

namespace ScrapeV6

/-- Character strings are modelled as lists of characters. -/
abbrev Str := List Char

/-- Turn a Lean string literal into the list-of-characters model. -/
def str (s : String) : Str := s.toList

/-- Whitespace as recognized by Python's regular-expression class backslash-s on
text strings and by str.strip with no arguments: the ASCII whitespace and
separator control characters plus the Unicode white-space code points. -/
def pyIsSpace (c : Char) : Bool :=
  let n := c.toNat
  (decide (9 ≤ n) && decide (n ≤ 13)) || n == 32 ||
    (decide (28 ≤ n) && decide (n ≤ 31)) || n == 0x85 || n == 0xa0 ||
    n == 0x1680 || (decide (0x2000 ≤ n) && decide (n ≤ 0x200a)) ||
    n == 0x2028 || n == 0x2029 || n == 0x202f || n == 0x205f || n == 0x3000

/-- Python str.strip with no arguments: remove leading and trailing whitespace. -/
def pyStrip (s : Str) : Str :=
  ((s.dropWhile pyIsSpace).reverse.dropWhile pyIsSpace).reverse

/-- Python str.rstrip with a one-character set: remove trailing copies of it. -/
def pyRstripChar (ch : Char) (s : Str) : Str :=
  (s.reverse.dropWhile (fun c => c == ch)).reverse

/-- Python str.strip with a one-character set: remove leading and trailing
copies of it. -/
def pyStripChar (ch : Char) (s : Str) : Str :=
  ((s.dropWhile (fun c => c == ch)).reverse.dropWhile (fun c => c == ch)).reverse

/-- Characters kept by the regular-expression sub in slugify (source line 118):
digits, ASCII letters, whitespace and the hyphen (code point 45); everything
else is removed. -/
def slugKeep (c : Char) : Bool :=
  let n := c.toNat
  (decide (48 ≤ n) && decide (n ≤ 57)) || (decide (65 ≤ n) && decide (n ≤ 90)) ||
    (decide (97 ≤ n) && decide (n ≤ 122)) || pyIsSpace c || n == 45

/-- slugify (source lines 116-119): the character-class sub removes every
character outside the kept class, then strip, lower, and replace of each space
character by a hyphen.  Char.toLower agrees with Python str.lower on every
character the preceding filter keeps. -/
def slugify (text : Str) : Str :=
  let slug := text.filter slugKeep
  ((pyStrip slug).map Char.toLower).map (fun c => if c == ' ' then '-' else c)

/-- Whether pat occurs in s starting at index i. -/
def matchAt (pat s : Str) (i : Nat) : Bool := pat.isPrefixOf (s.drop i)

/-- All start indices at which pat occurs in s, in increasing order. -/
def occurrences (pat s : Str) : List Nat :=
  (List.range (s.length + 1)).filter (fun i => matchAt pat s i)

/-- Python find(pat, start): the least occurrence index that is at least start,
none when absent (Python returns -1). -/
def pyFind (pat s : Str) (start : Nat) : Option Nat :=
  ((occurrences pat s).filter (fun i => decide (start ≤ i))).head?

/-- Python rfind(pat, 0, stop): the greatest occurrence ending by stop, none
when absent (Python returns -1). -/
def pyRfind (pat s : Str) (stop : Nat) : Option Nat :=
  ((occurrences pat s).filter (fun i => decide (i + pat.length ≤ stop))).getLast?

/-- Substring containment, the Python in operator on strings. -/
def isSubstr (pat s : Str) : Bool := (pyFind pat s 0).isSome

/-- Generic regex-substitution scanner.  The matcher reports, at a scan
position, the length of a (non-empty) match there and its replacement; like
Python re.sub the scan is left to right, non-overlapping, and resumes after
the matched span, never rescanning replacement text.  The fuel argument
bounds the number of steps; scanSub supplies more fuel than the string's
length, and every step consumes at least one character, so the fuel never
runs out. -/
def scanSubAux (m : Str → Option (Nat × Str)) : Nat → Str → Str
  | 0, s => s
  | _ + 1, [] => []
  | fuel + 1, c :: rest =>
    match m (c :: rest) with
    | some (k, r) =>
      if k = 0 then c :: scanSubAux m fuel rest
      else r ++ scanSubAux m fuel ((c :: rest).drop k)
    | none => c :: scanSubAux m fuel rest

/-- Full substitution pass over a string (Python re.sub with a matcher). -/
def scanSub (m : Str → Option (Nat × Str)) (s : Str) : Str :=
  scanSubAux m (s.length + 1) s

/-- Rest of the current line: the longest prefix without a newline, which is
what the regex dot can consume. -/
def lineRest (s : Str) : Str := s.takeWhile (fun c => !(c == '\n'))

/-- Matcher for the eslint comment patterns (source lines 102-103): the literal
comment opening, then dot-star star-slash, which greedily reaches the last
closing star-slash on the same line. -/
def eslintMatcher (opening : Str) (s : Str) : Option (Nat × Str) :=
  if opening.isPrefixOf s then
    let seg := lineRest (s.drop opening.length)
    match pyRfind (str "*/") seg seg.length with
    | some j => some (opening.length + j + 2, [])
    | none => none
  else none

/-- Matcher for the VersionVersion dot-star pattern (source line 104): the
literal marker and then the rest of the line. -/
def versionMatcher (s : Str) : Option (Nat × Str) :=
  if (str "VersionVersion").isPrefixOf s then
    some ((str "VersionVersion").length + (lineRest (s.drop 14)).length, [])
  else none

/-- Matcher for the Theme backslash-s plus dot-star pattern (source line 105):
the literal marker, at least one whitespace character taken greedily (this run
may span newlines), then the rest of the line. -/
def themeMatcher (s : Str) : Option (Nat × Str) :=
  if (str "Theme").isPrefixOf s then
    let ws := ((s.drop 5).takeWhile pyIsSpace).length
    if ws = 0 then none
    else some (5 + ws + (lineRest (s.drop (5 + ws))).length, [])
  else none

/-- The caret tab dot-star patterns (source lines 106-107): without the
MULTILINE flag the caret anchors only at the very start of the whole string,
so the sub removes the first line's content exactly when the text begins with
a tab. -/
def subCaretTab (s : Str) : Str :=
  match s with
  | '\t' :: _ => s.drop (lineRest s).length
  | _ => s

/-- Index of the last newline character in a list, if any. -/
def lastNlIdx : Str → Option Nat
  | [] => none
  | c :: rest =>
    match lastNlIdx rest with
    | some j => some (j + 1)
    | none => if c == '\n' then some 0 else none

/-- Matcher for newline backslash-s star newline (source line 112): a newline,
then the maximal whitespace run, backtracking so that the final literal
newline lands on the last newline inside that run; the whole match is
replaced by exactly two newlines. -/
def blankMatcher (s : Str) : Option (Nat × Str) :=
  match s with
  | '\n' :: rest =>
    let ws := rest.takeWhile pyIsSpace
    match lastNlIdx ws with
    | some j => some (1 + j + 1, str "\n\n")
    | none => none
  | _ => none

/-- Python str.split with a one-character separator: empty pieces are kept and
the empty string splits to one empty piece. -/
def splitOnChar (sep : Char) : Str → List Str
  | [] => [[]]
  | c :: rest =>
    if c == sep then [] :: splitOnChar sep rest
    else
      match splitOnChar sep rest with
      | [] => [[c]]
      | l :: ls => (c :: l) :: ls

/-- The lines of a string, Python str.split on a newline. -/
def pyLines (s : Str) : List Str := splitOnChar '\n' s

/-- Python newline-join of a list of lines. -/
def joinNl : List Str → Str
  | [] => []
  | [l] => l
  | l :: ls => l ++ '\n' :: joinNl ls

/-- Whether a line starts with a tab character (Python startswith tab). -/
def startsTab : Str → Bool
  | [] => false
  | c :: _ => c == '\t'

/-- A string in which no newline is immediately followed by a tab, so that no
line after the first begins with a tab. -/
def goodT : Str → Bool
  | [] => true
  | c :: rest => (!(c == '\n' && startsTab rest)) && goodT rest

/-- filter_unwanted_md (source lines 96-114): the six regex substitutions in
order - the two eslint comment patterns, the VersionVersion pattern, the
Theme pattern, and the two identical caret-tab patterns (which, lacking the
MULTILINE flag, act only at the start of the whole string) - then the
blank-run collapse, then removal of every line starting with a tab, then
strip of the whole text. -/
def filter_unwanted_md (text : Str) : Str :=
  let t1 := scanSub (eslintMatcher (str "/* eslint-disable")) text
  let t2 := scanSub (eslintMatcher (str "/* eslint-enable")) t1
  let t3 := scanSub versionMatcher t2
  let t4 := scanSub themeMatcher t3
  let t5 := subCaretTab (subCaretTab t4)
  let t6 := scanSub blankMatcher t5
  pyStrip (joinNl ((pyLines t6).filter (fun l => !startsTab l)))

/-- First byte-level removal in clean_html_content (source lines 125-129):
excise from the breadcrumb div opening up to just past the first subsequent
closing div tag; skip silently when either marker is absent. -/
def removeBreadcrumb (content : Str) : Str :=
  match pyFind (str "<div class=\"breadcrumb\"") content 0 with
  | none => content
  | some start =>
    match pyFind (str "</div>") content start with
    | none => content
    | some e => content.take start ++ content.drop (e + 6)

/-- Second byte-level removal in clean_html_content (source lines 131-137):
around the On-this-page heading marker, excise from the nearest preceding div
opening up to just past the next closing div tag; skip silently when any of
the three markers is absent. -/
def removeOnThisPage (content : Str) : Str :=
  match pyFind (str "<h2>On this page") content 0 with
  | none => content
  | some pos =>
    match pyRfind (str "<div") content pos, pyFind (str "</div>") content pos with
    | some ds, some de => content.take ds ++ content.drop (de + 6)
    | _, _ => content

/-- clean_html_content (source lines 121-138): both best-effort removals in
order. -/
def clean_html_content (content : Str) : Str :=
  removeOnThisPage (removeBreadcrumb content)

mutual
/-- An HTML node as handed to element_to_md: a NavigableString, or a tag
element with its name, its class token list, its other attributes, and its
children. -/
inductive Node : Type where
  | text : Str → Node
  | elem : Str → List Str → List (Str × Str) → NodeList → Node
/-- The ordered children of an element. -/
inductive NodeList : Type where
  | nil : NodeList
  | cons : Node → NodeList → NodeList
end

mutual
/-- BeautifulSoup get_text: concatenation of every string in the subtree. -/
def nodeText : Node → Str
  | .text s => s
  | .elem _ _ _ ch => nodeTextList ch
/-- get_text over a sequence of siblings. -/
def nodeTextList : NodeList → Str
  | .nil => []
  | .cons n tl => nodeText n ++ nodeTextList tl
end

/-- Tag.get on an attribute name with default empty string. -/
def attrGet (attrs : List (Str × Str)) (key : Str) : Str :=
  match attrs with
  | [] => []
  | (k, v) :: tl => if k = key then v else attrGet tl key

/-- The site base url constant BASE_URL (source line 37). -/
def BASE_URL : Str := str "https://www.tradingview.com"

/-- Python str.rstrip of trailing newline characters only. -/
def rstripNl (s : Str) : Str := pyRstripChar '\n' s

/-- Everything after the first hash character: Python split on hash with limit
one, second piece.  Only consulted when a hash is present. -/
def afterHash (s : Str) : Str := (s.dropWhile (fun c => !(c == '#'))).drop 1

/-- The Python expression href.rstrip(slash).split(slash), last piece if
non-empty, otherwise the piece before it (source line 205).  The index-error
case of a fully empty split is modelled as the empty string; it is
unreachable under the enclosing manual-link test, which requires the docs
path marker to occur in the url. -/
def lastSegOr (href : Str) : Str :=
  let pieces := splitOnChar '/' (pyRstripChar '/' href)
  let last := pieces.getLastD []
  if last ≠ [] then last else pieces.dropLast.getLastD []

/-- Heading tag names recognized by element_to_md. -/
def headingNames : List Str := [str "h1", str "h2", str "h3", str "h4", str "h5", str "h6"]

/-- Python int(name[1]) for a heading tag name: the numeric value of its second
character. -/
def headingLevel (name : Str) : Nat := (name.getD 1 '0').toNat - 48

mutual
/-- element_to_md (source lines 140-223).  The inPre flag models the
find_parent check on the pre tag in the whitespace-text case: it records
whether an ancestor of the current node is a pre element.  The recursion
never descends into pre or colorizer subtrees (those branches use get_text
instead of recursing), so the flag is passed through unchanged, and a
conversion rooted outside any pre element keeps it false throughout. -/
def element_to_md (inPre : Bool) (n : Node) (indent : Nat) : Str :=
  match n with
  | .text s =>
    if s ≠ [] ∧ ∀ c ∈ s, pyIsSpace c then (if inPre then s else []) else s
  | .elem name classes attrs children =>
    if name = str "div" ∧ str "pine-colorizer" ∈ classes ∧ str "not-content" ∈ classes then
      str "\n```\n" ++ pyStrip (nodeTextList children) ++ str "\n```\n\n"
    else if name = str "pre" ∨ (str "code" ∈ classes ∧ '\n' ∈ nodeTextList children) then
      str "\n```\n" ++ rstripNl (nodeTextList children) ++ str "\n```\n\n"
    else if name = str "code" then
      let code_text := pyStrip (nodeTextList children)
      if '\n' ∈ code_text ∨ 80 < code_text.length then
        str "\n```\n" ++ code_text ++ str "\n```\n\n"
      else str "`" ++ code_text ++ str "`"
    else if name ∈ headingNames then
      List.replicate (headingLevel name) '#' ++ str " " ++
        pyStrip (childrenMd inPre children indent) ++ str "\n\n"
    else if name = str "p" ∨ name = str "div" then
      let content := pyStrip (childrenMd inPre children indent)
      if content = [] then [] else content ++ str "\n\n"
    else if name = str "ul" ∨ name = str "ol" then
      listItemsMd inPre (name == str "ol") 1 indent children ++ str "\n"
    else if name = str "br" then str "  \n"
    else if name = str "a" then
      let href := attrGet attrs (str "href")
      let link_text := pyStrip (childrenMd inPre children indent)
      if href = [] then link_text
      else
        let full_url := if (str "http").isPrefixOf href then href else BASE_URL ++ href
        if isSubstr BASE_URL full_url ∧ isSubstr (str "/pine-script-docs") full_url then
          if '#' ∈ href then
            str "[" ++ link_text ++ str "](#" ++ afterHash href ++ str ")"
          else
            str "[" ++ link_text ++ str "](#" ++ slugify (lastSegOr href) ++ str ")"
        else str "[" ++ link_text ++ str "](" ++ full_url ++ str ")"
    else if name = str "strong" ∨ name = str "b" then
      str "**" ++ pyStrip (childrenMd inPre children indent) ++ str "**"
    else if name = str "em" ∨ name = str "i" then
      str "*" ++ pyStrip (childrenMd inPre children indent) ++ str "*"
    else if name = str "img" then
      let alt_text := attrGet attrs (str "alt")
      let src := attrGet attrs (str "src")
      if src = [] then []
      else
        str "![" ++ alt_text ++ str "](" ++
          (if (str "http").isPrefixOf src then src else BASE_URL ++ src) ++ str ")"
    else childrenMd inPre children indent

/-- Concatenated recursive conversion of a sequence of children. -/
def childrenMd (inPre : Bool) (ns : NodeList) (indent : Nat) : Str :=
  match ns with
  | .nil => []
  | .cons c tl => element_to_md inPre c indent ++ childrenMd inPre tl indent

/-- The loop over direct li children of a list element, find_all with the
non-recursive flag (source lines 183-189): one marker-prefixed, re-indented
entry per li child, skipping other children; the counter advances only for
ordered lists. -/
def listItemsMd (inPre : Bool) (is_ol : Bool) (num : Nat) (indent : Nat) : NodeList → Str
  | .nil => []
  | .cons (.text _) tl => listItemsMd inPre is_ol num indent tl
  | .cons (.elem nm _ _ liCh) tl =>
    if nm = str "li" then
      let pre_str := if is_ol then (Nat.repr num).toList ++ str ". " else str "- "
      let inner0 := pyStrip (childrenMd inPre liCh (indent + pre_str.length))
      let inner := (inner0.map (fun c =>
        if c == '\n' then '\n' :: List.replicate (indent + pre_str.length) ' ' else [c])).flatten
      List.replicate indent ' ' ++ pre_str ++ inner ++ str "\n" ++
        listItemsMd inPre is_ol (if is_ol then num + 1 else num) indent tl
    else listItemsMd inPre is_ol num indent tl
end

/-- Zero-padded five-digit decimal rendering of the chapter index, the Python
format 05d for the non-negative indices produced by enumerate. -/
def pad5 (idx : Nat) : Str :=
  let d := (Nat.repr idx).toList
  List.replicate (5 - d.length) '0' ++ d

/-- Local cache file name for the chapter with 1-based index idx at
chapter_url (source lines 308-311): the url with surrounding slashes
stripped and every remaining slash replaced by an underscore, given a .html
suffix when that suffix is missing, prefixed by the padded index and an
underscore. -/
def cacheFileName (idx : Nat) (chapter_url : Str) : Str :=
  let safe0 := (pyStripChar '/' chapter_url).map (fun c => if c == '/' then '_' else c)
  let safe_name := if (str ".html").isSuffixOf safe0 then safe0 else safe0 ++ str ".html"
  pad5 idx ++ '_' :: safe_name

/-- The backtick character, used by the inline-code emission. -/
def backquote : Char := Char.ofNat 96

/-- Emission rule for inline code as the specification of claim C2 words it:
promote to a fenced block on a newline or length over eighty, otherwise
single-backtick inline code, escalated to double backticks when the content
itself contains a backtick. -/
def specInlineCode (t : Str) : Str :=
  if '\n' ∈ t ∨ 80 < t.length then str "\n```\n" ++ t ++ str "\n```\n\n"
  else if backquote ∈ t then str "``" ++ t ++ str "``"
  else str "`" ++ t ++ str "`"

/-- Link emission as the amended claim C1 words it: resolve by prefixing the
base url when the href does not start with http; classify as internal exactly
when the absolute url contains both the base url and the docs path marker as
substrings; for internal links use the raw fragment after the first hash of
the href when one is present, and otherwise the slug of the last non-empty
slash piece of the href; external links keep the absolute url as target; an
element with no href emits just the text. -/
def specLinkMd (href link_text : Str) : Str :=
  if href = [] then link_text
  else
    let full_url := if (str "http").isPrefixOf href then href else BASE_URL ++ href
    if isSubstr BASE_URL full_url ∧ isSubstr (str "/pine-script-docs") full_url then
      if '#' ∈ href then str "[" ++ link_text ++ str "](#" ++ afterHash href ++ str ")"
      else str "[" ++ link_text ++ str "](#" ++ slugify (lastSegOr href) ++ str ")"
    else str "[" ++ link_text ++ str "](" ++ full_url ++ str ")"

/-- Cache file name as claim C7 words it: the padded index, an underscore, the
slug of the url path, and the .html extension. -/
def specCacheName (idx : Nat) (url : Str) : Str :=
  pad5 idx ++ str "_" ++ slugify url ++ str ".html"

/-- The underscored safe name the orchestrator actually builds for a chapter
url: surrounding slashes stripped, every remaining slash replaced by an
underscore, and the .html suffix appended when missing. -/
def specSafeName (url : Str) : Str :=
  let safe0 := (pyStripChar '/' url).map (fun c => if c == '/' then '_' else c)
  if (str ".html").isSuffixOf safe0 then safe0 else safe0 ++ str ".html"

/-- The intended slug output alphabet of claim C8: lowercase ASCII letters,
digits, and the hyphen. -/
def slugAlphabet (c : Char) : Bool :=
  let n := c.toNat
  (decide (97 ≤ n) && decide (n ≤ 122)) || (decide (48 ≤ n) && decide (n ≤ 57)) ||
    n == 45

/-- Helper: a list maps to itself when the function fixes every element. -/
theorem map_eq_self_of_fix {f : Char → Char} {l : Str} (h : ∀ c ∈ l, f c = c) :
    l.map f = l := by
  have h' : ∀ c ∈ l, f c = id c := h
  rw [List.map_congr_left h', List.map_id]

/-- Helper: dropWhile is the identity when no element satisfies the test. -/
theorem dropWhile_eq_self_of_all {p : Char → Bool} {l : Str}
    (h : ∀ c ∈ l, p c = false) : l.dropWhile p = l := by
  cases l with
  | nil => rfl
  | cons c rest =>
    rw [List.dropWhile_cons, if_neg]
    simp [h c (List.mem_cons_self c rest)]

/-- Helper: strip is the identity on a string with no whitespace at all. -/
theorem pyStrip_eq_self_of_all {l : Str} (h : ∀ c ∈ l, pyIsSpace c = false) :
    pyStrip l = l := by
  unfold pyStrip
  rw [dropWhile_eq_self_of_all h,
    dropWhile_eq_self_of_all (fun c hc => h c (List.mem_reverse.mp hc)),
    List.reverse_reverse]

/-- Helper: slug-alphabet characters survive the slugify character filter. -/
theorem slugAlphabet_keep (c : Char) (h : slugAlphabet c = true) :
    slugKeep c = true := by
  simp only [slugAlphabet, decide_eq_true_eq, Bool.or_eq_true, Bool.and_eq_true,
    beq_iff_eq] at h
  simp only [slugKeep, decide_eq_true_eq, Bool.or_eq_true, Bool.and_eq_true,
    beq_iff_eq]
  omega

/-- Helper: slug-alphabet characters are not whitespace. -/
theorem slugAlphabet_not_space (c : Char) (h : slugAlphabet c = true) :
    pyIsSpace c = false := by
  simp only [slugAlphabet, decide_eq_true_eq, Bool.or_eq_true, Bool.and_eq_true,
    beq_iff_eq] at h
  rw [Bool.eq_false_iff]
  intro hsp
  simp only [pyIsSpace, decide_eq_true_eq, Bool.or_eq_true, Bool.and_eq_true,
    beq_iff_eq] at hsp
  omega

/-- Helper: lowering fixes slug-alphabet characters. -/
theorem slugAlphabet_toLower (c : Char) (h : slugAlphabet c = true) :
    Char.toLower c = c := by
  simp only [slugAlphabet, decide_eq_true_eq, Bool.or_eq_true, Bool.and_eq_true,
    beq_iff_eq] at h
  simp only [Char.toLower]
  rw [if_neg]
  omega

/-- Helper: the space-to-hyphen step fixes slug-alphabet characters. -/
theorem slugAlphabet_not_space_char (c : Char) (h : slugAlphabet c = true) :
    (if c == ' ' then '-' else c) = c := by
  simp only [slugAlphabet, decide_eq_true_eq, Bool.or_eq_true, Bool.and_eq_true,
    beq_iff_eq] at h
  rw [if_neg]
  intro hc
  have : c = ' ' := by simpa using hc
  rw [this] at h
  simp at h

/-- Helper: slugify fixes any string over the slug output alphabet. -/
theorem slugify_eq_self {x : Str} (h : ∀ c ∈ x, slugAlphabet c = true) :
    slugify x = x := by
  simp only [slugify]
  rw [List.filter_eq_self.mpr (fun c hc => slugAlphabet_keep c (h c hc))]
  rw [pyStrip_eq_self_of_all (fun c hc => slugAlphabet_not_space c (h c hc))]
  rw [map_eq_self_of_fix (fun c hc => slugAlphabet_toLower c (h c hc))]
  exact map_eq_self_of_fix (fun c hc => slugAlphabet_not_space_char c (h c hc))

/-- Claim C3, counterexample: the slug generator does not replace every internal
whitespace character by a hyphen - an internal tab survives as whitespace in
the output, so slugify of a-tab-b is a-tab-b and not a-hyphen-b. -/
theorem c3_counterexample :
    slugify (str "a\tb") = str "a\tb" ∧ slugify (str "a\tb") ≠ str "a-b" ∧
      '\t' ∈ slugify (str "a\tb") := by
  refine ⟨by decide, by decide, by decide⟩

/-- Claim C3, amended: slugify removes every character that is not a digit, an
ASCII letter, whitespace, or a hyphen, trims surrounding whitespace,
lower-cases, and replaces each space character (only the space, code point
32) by a hyphen: no space remains in any output, consecutive spaces become
consecutive hyphens, but internal tabs and newlines survive unchanged. -/
theorem c3_slugify_space_only :
    (∀ s : Str, (slugify s).all (fun c => !(c == ' ')) = true) ∧
      slugify (str " Ab  Cd ") = str "ab--cd" ∧
      slugify (str "a\tb") = str "a\tb" := by
  refine ⟨?_, by decide, by decide⟩
  intro s
  rw [List.all_eq_true]
  intro c hmem
  simp only [slugify] at hmem
  rcases List.mem_map.mp hmem with ⟨a, _, ha⟩
  by_cases h : (a == ' ') = true
  · rw [if_pos h] at ha
    rw [← ha]
    decide
  · rw [if_neg h] at ha
    rw [← ha]
    simpa using h

/-- Claim C4, counterexample: the post-filter is not idempotent and its output
can retain a run of two consecutive blank lines: on the document a, blank,
blank, tab-x, blank, blank, b the first application yields a followed by two
blank lines and b (the tab line is removed only after the blank-run
collapse), and a second application changes that result again. -/
theorem c4_counterexample :
    filter_unwanted_md (str "a\n\n\tx\n\nb") = str "a\n\n\nb" ∧
      filter_unwanted_md (filter_unwanted_md (str "a\n\n\tx\n\nb")) ≠
        filter_unwanted_md (str "a\n\n\tx\n\nb") := by
  refine ⟨by decide, by decide⟩

/-- Claim C4, amended: the post-filter collapses a run of blank lines to one
blank line and trims the document (three consecutive blank lines become
exactly one), but it removes tab-initial lines only after that collapse, so
removing a tab line can leave two consecutive blank lines in the output and
the filter is not idempotent; applying it again collapses the leftover run. -/
theorem c4_amended :
    filter_unwanted_md (str "a\n\n\n\nb") = str "a\n\nb" ∧
      filter_unwanted_md (str "a\n\n\tx\n\nb") = str "a\n\n\nb" ∧
      filter_unwanted_md (str "a\n\n\nb") = str "a\n\nb" := by
  refine ⟨by decide, by decide, by decide⟩

/-- Claim C7, counterexample: the cache file name is not built from the slug of
the url path - the orchestrator keeps interior slashes as underscores, which
the slug generator would delete outright, so the two names differ already on
the ordinary chapter url /pine-script-docs/welcome/. -/
theorem c7_counterexample :
    cacheFileName 1 (str "/pine-script-docs/welcome/") =
        str "00001_pine-script-docs_welcome.html" ∧
      cacheFileName 1 (str "/pine-script-docs/welcome/") ≠
        specCacheName 1 (str "/pine-script-docs/welcome/") := by
  refine ⟨by decide, by decide⟩

/-- Claim C7, amended: the cache file name is the zero-padded five-digit
1-based index, an underscore, and the chapter url with surrounding slashes
stripped and every interior slash replaced by an underscore, with the .html
extension appended when not already present; the part after the underscore
never contains a slash and always ends in .html. -/
theorem c7_cache_name :
    (∀ idx url, cacheFileName idx url = pad5 idx ++ '_' :: specSafeName url) ∧
      (∀ url, (specSafeName url).all (fun c => !(c == '/')) = true) ∧
      (∀ url, (str ".html").isSuffixOf (specSafeName url) = true) ∧
      cacheFileName 1 (str "/pine-script-docs/welcome/") =
        str "00001_pine-script-docs_welcome.html" := by
  refine ⟨fun idx url => rfl, ?_, ?_, by decide⟩
  · intro url
    rw [List.all_eq_true]
    intro c hmem
    have hsafe : ∀ d ∈ (pyStripChar '/' url).map (fun c => if c == '/' then '_' else c),
        (!(d == '/')) = true := by
      intro d hd
      rcases List.mem_map.mp hd with ⟨a, _, ha⟩
      by_cases h : (a == '/') = true
      · rw [if_pos h] at ha
        rw [← ha]
        decide
      · rw [if_neg h] at ha
        rw [← ha]
        simpa using h
    simp only [specSafeName] at hmem
    split at hmem
    · exact hsafe c hmem
    · rcases List.mem_append.mp hmem with hc | hc
      · exact hsafe c hc
      · have hext : ∀ d ∈ str ".html", (!(d == '/')) = true := by decide
        exact hext c hc
  · intro url
    simp only [specSafeName]
    split
    · assumption
    · simp only [List.isSuffixOf_iff_suffix]
      exact List.suffix_append _ _

/-- Claim C8: the slug generator is idempotent on strings over its output
alphabet of lowercase letters, digits, and hyphens; slugify fixes such
strings, so applying it twice equals applying it once. -/
theorem c8_slug_idempotent (x : Str) (h : ∀ c ∈ x, slugAlphabet c = true) :
    slugify (slugify x) = slugify x := by
  rw [slugify_eq_self h]
  exact slugify_eq_self h

/-- Witness for claim C8 at the concrete slug ab-1. -/
theorem c8_witness :
    (∀ c ∈ str "ab-1", slugAlphabet c = true) ∧
      slugify (slugify (str "ab-1")) = slugify (str "ab-1") :=
  ⟨by decide, c8_slug_idempotent (str "ab-1") (by decide)⟩

/-- Claim C1, counterexample: an anchor with href /docs/intro/ does not emit a
link to the in-document anchor intro - that path does not contain the
/pine-script-docs marker, so the code classifies it as external and emits the
absolute url. -/
theorem c1_counterexample :
    element_to_md false (.elem (str "a") [] [(str "href", str "/docs/intro/")]
        (.cons (.text (str "text")) .nil)) 0 =
        str "[text](https://www.tradingview.com/docs/intro/)" ∧
      element_to_md false (.elem (str "a") [] [(str "href", str "/docs/intro/")]
          (.cons (.text (str "text")) .nil)) 0 ≠ str "[text](#intro)" := by
  refine ⟨by decide, by decide⟩

/-- Claim C1, amended: for an anchor element that is not captured by the
code-class fence branch, the emission is exactly the classification of
specLinkMd: absent or empty href emits just the trimmed text; otherwise the
href is made absolute by prefixing the base url unless it starts with http,
and the link is internal exactly when the absolute url contains both the
base url and the string /pine-script-docs as substrings - internal links
target the raw fragment after the first hash of the href when present and
otherwise the slug of the last non-empty slash piece, while external links
keep the absolute url; in particular /pine-script-docs/intro/ emits a link
to the intro anchor, a fragment round-trips, and external urls pass through. -/
theorem c1_link_classification :
    (∀ classes attrs children indent,
        ¬(str "code" ∈ classes ∧ '\n' ∈ nodeTextList children) →
        element_to_md false (.elem (str "a") classes attrs children) indent =
          specLinkMd (attrGet attrs (str "href"))
            (pyStrip (childrenMd false children indent))) ∧
      element_to_md false (.elem (str "a") [] [(str "href", str "/pine-script-docs/intro/")]
          (.cons (.text (str "text")) .nil)) 0 = str "[text](#intro)" ∧
      element_to_md false
          (.elem (str "a") [] [(str "href", str "/pine-script-docs/welcome/#foo")]
          (.cons (.text (str "text")) .nil)) 0 = str "[text](#foo)" ∧
      element_to_md false (.elem (str "a") [] [(str "href", str "https://example.com/page")]
          (.cons (.text (str "text")) .nil)) 0 = str "[text](https://example.com/page)" := by
  refine ⟨?_, by decide, by decide, by decide⟩
  intro classes attrs children indent h2
  simp only [element_to_md, specLinkMd]
  rw [if_neg (fun hco => absurd hco.1 (by decide))]
  rw [if_neg (fun hpre => hpre.elim (fun h => absurd h (by decide)) h2)]
  rw [if_neg (by decide)]
  rw [if_neg (by decide)]
  rw [if_neg (by decide)]
  rw [if_neg (by decide)]
  rw [if_neg (by decide)]
  rw [if_pos trivial]

/-- Witness for claim C1 on a concrete internal page link. -/
theorem c1_witness :
    ¬(str "code" ∈ ([] : List Str) ∧
        '\n' ∈ nodeTextList (.cons (.text (str "text")) .nil)) ∧
      element_to_md false (.elem (str "a") [] [(str "href", str "/pine-script-docs/lang/")]
          (.cons (.text (str "text")) .nil)) 0 =
        specLinkMd (attrGet [(str "href", str "/pine-script-docs/lang/")] (str "href"))
          (pyStrip (childrenMd false (.cons (.text (str "text")) .nil) 0)) :=
  ⟨by decide, c1_link_classification.1 [] [(str "href", str "/pine-script-docs/lang/")]
    (.cons (.text (str "text")) .nil) 0 (by decide)⟩

/-- Claim C2, counterexample: inline code containing a backtick is not
escalated to double backticks - the code wraps the text in single backticks
unconditionally, so the emission differs from the spec-side escalating rule. -/
theorem c2_counterexample :
    element_to_md false (.elem (str "code") [] [] (.cons (.text (str "a`b")) .nil)) 0 =
        str "`a`b`" ∧
      element_to_md false (.elem (str "code") [] [] (.cons (.text (str "a`b")) .nil)) 0 ≠
        specInlineCode (str "a`b") ∧
      specInlineCode (str "a`b") = str "``a`b``" := by
  refine ⟨by decide, by decide, by decide⟩

/-- Claim C2, amended: for a code element not captured by the code-class fence
branch, the trimmed text is promoted to a fenced block when it contains a
newline or its length exceeds eighty characters, and otherwise it is wrapped
in single backticks regardless of content - there is no double-backtick
escalation. -/
theorem c2_inline_code :
    (∀ classes attrs children indent,
        ¬(str "code" ∈ classes ∧ '\n' ∈ nodeTextList children) →
        element_to_md false (.elem (str "code") classes attrs children) indent =
          (if '\n' ∈ pyStrip (nodeTextList children) ∨
              80 < (pyStrip (nodeTextList children)).length
           then str "\n```\n" ++ pyStrip (nodeTextList children) ++ str "\n```\n\n"
           else str "`" ++ pyStrip (nodeTextList children) ++ str "`")) ∧
      element_to_md false (.elem (str "code") [] [] (.cons (.text (str "a`b")) .nil)) 0 =
        str "`a`b`" := by
  refine ⟨?_, by decide⟩
  intro classes attrs children indent h2
  simp only [element_to_md]
  rw [if_neg (fun hco => absurd hco.1 (by decide))]
  rw [if_neg (fun hpre => hpre.elim (fun h => absurd h (by decide)) h2)]
  rw [if_pos trivial]

/-- Witness for claim C2 on a concrete short code element. -/
theorem c2_witness :
    ¬(str "code" ∈ ([] : List Str) ∧
        '\n' ∈ nodeTextList (.cons (.text (str "xy")) .nil)) ∧
      element_to_md false (.elem (str "code") [] [] (.cons (.text (str "xy")) .nil)) 0 =
        (if '\n' ∈ pyStrip (nodeTextList (.cons (.text (str "xy")) .nil)) ∨
            80 < (pyStrip (nodeTextList (.cons (.text (str "xy")) .nil))).length
         then str "\n```\n" ++ pyStrip (nodeTextList (.cons (.text (str "xy")) .nil)) ++
           str "\n```\n\n"
         else str "`" ++ pyStrip (nodeTextList (.cons (.text (str "xy")) .nil)) ++ str "`") :=
  ⟨by decide, c2_inline_code.1 [] [] (.cons (.text (str "xy")) .nil) 0 (by decide)⟩

/-- Claim C5, counterexample: a heading element carrying class code with a
newline in its text is emitted as a fenced code block, not as hash markers. -/
theorem c5_counterexample :
    element_to_md false (.elem (str "h2") [str "code"] []
        (.cons (.text (str "a\nb")) .nil)) 0 = str "\n```\na\nb\n```\n\n" ∧
      element_to_md false (.elem (str "h2") [str "code"] []
          (.cons (.text (str "a\nb")) .nil)) 0 ≠ str "## a\nb\n\n" := by
  refine ⟨by decide, by decide⟩

/-- Claim C5, amended: for a heading element of level n from one to six that is
not captured by the code-class fence branch, the emission is exactly n hash
characters, a space, the trimmed recursive conversion of the children, and a
blank-line paragraph break; in particular an h2 over the text Intro yields
exactly the line with two hashes, Intro, and two newlines. -/
theorem c5_heading_emission :
    (∀ name classes attrs children indent, name ∈ headingNames →
        ¬(str "code" ∈ classes ∧ '\n' ∈ nodeTextList children) →
        element_to_md false (.elem name classes attrs children) indent =
          List.replicate (headingLevel name) '#' ++ str " " ++
            pyStrip (childrenMd false children indent) ++ str "\n\n") ∧
      element_to_md false (.elem (str "h2") [] []
          (.cons (.text (str "Intro")) .nil)) 0 = str "## Intro\n\n" := by
  refine ⟨?_, by decide⟩
  intro name classes attrs children indent h1 h2
  simp only [element_to_md]
  rw [if_neg (fun hco => by rw [hco.1] at h1; exact absurd h1 (by decide))]
  rw [if_neg (fun hpre => hpre.elim
    (fun h => by rw [h] at h1; exact absurd h1 (by decide)) h2)]
  rw [if_neg (fun hcode => by rw [hcode] at h1; exact absurd h1 (by decide))]
  rw [if_pos h1]

/-- Witness for claim C5 on a concrete h3 heading. -/
theorem c5_witness :
    str "h3" ∈ headingNames ∧
      element_to_md false (.elem (str "h3") [] []
          (.cons (.text (str "Intro")) .nil)) 0 =
        List.replicate (headingLevel (str "h3")) '#' ++ str " " ++
          pyStrip (childrenMd false (.cons (.text (str "Intro")) .nil) 0) ++ str "\n\n" :=
  ⟨by decide, c5_heading_emission.1 (str "h3") [] []
    (.cons (.text (str "Intro")) .nil) 0 (by decide) (by decide)⟩

/-- Claim C9, counterexample: not every div with empty trimmed content emits
nothing - the colorized-code container div with the pine-colorizer and
not-content classes emits an empty fenced block even when it has no children. -/
theorem c9_counterexample :
    element_to_md false
        (.elem (str "div") [str "pine-colorizer", str "not-content"] [] .nil) 0 =
        str "\n```\n\n```\n\n" ∧
      element_to_md false
          (.elem (str "div") [str "pine-colorizer", str "not-content"] [] .nil) 0 ≠ [] := by
  refine ⟨by decide, by decide⟩

/-- Claim C9, amended: a heading whose children convert to an empty trimmed
string still emits its hash markers, the space, and the paragraph break
(provided the element is not captured by the code-class fence branch),
whereas a p, or a div that is not the colorized-code container, emits nothing
at all when its trimmed content is empty (again outside the code-class fence
branch). -/
theorem c9_empty_elements :
    (∀ name classes attrs children indent, name ∈ headingNames →
        ¬(str "code" ∈ classes ∧ '\n' ∈ nodeTextList children) →
        pyStrip (childrenMd false children indent) = [] →
        element_to_md false (.elem name classes attrs children) indent =
          List.replicate (headingLevel name) '#' ++ str " " ++ str "\n\n") ∧
      (∀ name classes attrs children indent, (name = str "p" ∨ name = str "div") →
        ¬(name = str "div" ∧ str "pine-colorizer" ∈ classes ∧
            str "not-content" ∈ classes) →
        ¬(str "code" ∈ classes ∧ '\n' ∈ nodeTextList children) →
        pyStrip (childrenMd false children indent) = [] →
        element_to_md false (.elem name classes attrs children) indent = []) := by
  constructor
  · intro name classes attrs children indent h1 h2 hempty
    simp only [element_to_md]
    rw [if_neg (fun hco => by rw [hco.1] at h1; exact absurd h1 (by decide))]
    rw [if_neg (fun hpre => hpre.elim
      (fun h => by rw [h] at h1; exact absurd h1 (by decide)) h2)]
    rw [if_neg (fun hcode => by rw [hcode] at h1; exact absurd h1 (by decide))]
    rw [if_pos h1, hempty]
    simp
  · intro name classes attrs children indent hp hncol h2 hempty
    simp only [element_to_md]
    rw [if_neg hncol]
    rw [if_neg (fun hpre => hpre.elim
      (fun hq => hp.elim (fun he => by rw [he] at hq; exact absurd hq (by decide))
        (fun he => by rw [he] at hq; exact absurd hq (by decide))) h2)]
    rw [if_neg (fun hcode => hp.elim
      (fun he => by rw [he] at hcode; exact absurd hcode (by decide))
      (fun he => by rw [he] at hcode; exact absurd hcode (by decide)))]
    rw [if_neg (fun hh => hp.elim
      (fun he => by rw [he] at hh; exact absurd hh (by decide))
      (fun he => by rw [he] at hh; exact absurd hh (by decide)))]
    rw [if_pos hp]
    simp [hempty]

/-- Witness for claim C9 on a concrete empty h2 and the matching theorem
hypotheses. -/
theorem c9_witness :
    str "h2" ∈ headingNames ∧
      element_to_md false (.elem (str "h2") [] [] .nil) 0 =
        List.replicate (headingLevel (str "h2")) '#' ++ str " " ++ str "\n\n" :=
  ⟨by decide, c9_empty_elements.1 (str "h2") [] [] .nil 0 (by decide) (by decide)
    (by decide)⟩

/-- Claim C6: the byte-level sanitizer is total and best-effort.  When the
breadcrumb marker is missing the first removal leaves the content unchanged,
and likewise when the closing div after it is missing; when the On-this-page
marker is missing the second removal leaves the content unchanged, and
likewise when either enclosing container delimiter is missing; with both
markers absent clean_html_content is the identity.  Never raising is
intrinsic to the model: the function is defined on every input. -/
theorem c6_sanitizer_best_effort :
    (∀ content, pyFind (str "<div class=\"breadcrumb\"") content 0 = none →
        removeBreadcrumb content = content) ∧
      (∀ content start,
        pyFind (str "<div class=\"breadcrumb\"") content 0 = some start →
        pyFind (str "</div>") content start = none →
        removeBreadcrumb content = content) ∧
      (∀ content, pyFind (str "<h2>On this page") content 0 = none →
        removeOnThisPage content = content) ∧
      (∀ content pos, pyFind (str "<h2>On this page") content 0 = some pos →
        (pyRfind (str "<div") content pos = none ∨
          pyFind (str "</div>") content pos = none) →
        removeOnThisPage content = content) ∧
      (∀ content, pyFind (str "<div class=\"breadcrumb\"") content 0 = none →
        pyFind (str "<h2>On this page") content 0 = none →
        clean_html_content content = content) := by
  have hb : ∀ content, pyFind (str "<div class=\"breadcrumb\"") content 0 = none →
      removeBreadcrumb content = content := by
    intro content h
    simp [removeBreadcrumb, h]
  have ho : ∀ content, pyFind (str "<h2>On this page") content 0 = none →
      removeOnThisPage content = content := by
    intro content h
    simp [removeOnThisPage, h]
  refine ⟨hb, ?_, ho, ?_, ?_⟩
  · intro content start h1 h2
    simp [removeBreadcrumb, h1, h2]
  · intro content pos h1 h2
    rcases h2 with h2 | h2
    · cases hf : pyFind (str "</div>") content pos <;>
        simp [removeOnThisPage, h1, h2, hf]
    · cases hr : pyRfind (str "<div") content pos <;>
        simp [removeOnThisPage, h1, h2, hr]
  · intro content h1 h2
    rw [clean_html_content, hb content h1, ho content h2]

/-- Witness for claim C6 on content containing none of the markers. -/
theorem c6_witness :
    pyFind (str "<div class=\"breadcrumb\"") (str "hello") 0 = none ∧
      pyFind (str "<h2>On this page") (str "hello") 0 = none ∧
      clean_html_content (str "hello") = str "hello" :=
  ⟨by decide, by decide,
    c6_sanitizer_best_effort.2.2.2.2 (str "hello") (by decide) (by decide)⟩

/-- Helper: splitting never produces the empty list of pieces. -/
theorem splitOnChar_ne_nil (sep : Char) (s : Str) : splitOnChar sep s ≠ [] := by
  cases s with
  | nil => simp [splitOnChar]
  | cons c rest =>
    simp only [splitOnChar]
    split
    · simp
    · rcases h : splitOnChar sep rest with _ | ⟨l, ls⟩ <;> simp [h]

/-- Helper: a separator character never occurs inside a split piece. -/
theorem splitOnChar_no_sep (sep : Char) (s : Str) :
    ∀ l ∈ splitOnChar sep s, sep ∉ l := by
  induction s with
  | nil =>
    intro l hl
    simp only [splitOnChar, List.mem_singleton] at hl
    subst hl
    simp
  | cons c rest ih =>
    intro l hl
    simp only [splitOnChar] at hl
    by_cases hc : (c == sep) = true
    · rw [if_pos hc] at hl
      rcases List.mem_cons.mp hl with rfl | hl
      · simp
      · exact ih l hl
    · rw [if_neg hc] at hl
      rcases hsp : splitOnChar sep rest with _ | ⟨l0, ls⟩
      · exact absurd hsp (splitOnChar_ne_nil sep rest)
      · rw [hsp] at hl
        rcases List.mem_cons.mp hl with rfl | hl
        · intro hmem
          rcases List.mem_cons.mp hmem with heq | hmem
          · rw [heq] at hc
            simp at hc
          · exact ih l0 (by rw [hsp]; exact List.mem_cons_self l0 ls) hmem
        · exact ih l (by rw [hsp]; exact List.mem_cons_of_mem l0 hl)

/-- Helper: the tab-freedom invariant passes to the tail. -/
theorem goodT_tail {c : Char} {rest : Str} (h : goodT (c :: rest) = true) :
    goodT rest = true := by
  simp only [goodT, Bool.and_eq_true] at h
  exact h.2

/-- Helper: a string with no newline at all satisfies the invariant. -/
theorem goodT_of_no_nl {l : Str} (h : '\n' ∉ l) : goodT l = true := by
  induction l with
  | nil => rfl
  | cons c rest ih =>
    have hc : (c == '\n') = false := by
      simp only [beq_eq_false_iff_ne]
      intro e
      exact h (by rw [← e]; exact List.mem_cons_self c rest)
    simp only [goodT, hc, Bool.false_and, Bool.not_false, Bool.true_and]
    exact ih (fun hm => h (List.mem_cons_of_mem c hm))

/-- Helper: the first character decides whether a line starts with a tab. -/
theorem startsTab_cons (c : Char) (xs : Str) : startsTab (c :: xs) = (c == '\t') := rfl

/-- Helper: a prefix of a tab-clean start is a tab-clean start. -/
theorem startsTab_append {a b : Str} (h : startsTab (a ++ b) = false) :
    startsTab a = false := by
  cases a with
  | nil => rfl
  | cons c xs => exact h

/-- Helper: gluing a newline-free line in front of a good string whose first
line does not start with a tab keeps the invariant. -/
theorem goodT_append_nl {l rest : Str} (hnl : '\n' ∉ l)
    (hst : startsTab rest = false) (hg : goodT rest = true) :
    goodT (l ++ '\n' :: rest) = true := by
  induction l with
  | nil =>
    simp only [List.nil_append, goodT, Bool.and_eq_true]
    refine ⟨?_, hg⟩
    simp [hst]
  | cons c l' ih =>
    have hc : (c == '\n') = false := by
      simp only [beq_eq_false_iff_ne]
      intro e
      exact hnl (by rw [← e]; exact List.mem_cons_self c l')
    simp only [List.cons_append, goodT, hc, Bool.false_and, Bool.not_false,
      Bool.true_and]
    exact ih (fun hm => hnl (List.mem_cons_of_mem c hm))

/-- Helper: joining lines that neither start with a tab nor contain a newline
yields a good string that does not start with a tab. -/
theorem joinNl_good (ls : List Str) (hst : ∀ l ∈ ls, startsTab l = false)
    (hnl : ∀ l ∈ ls, '\n' ∉ l) :
    goodT (joinNl ls) = true ∧ startsTab (joinNl ls) = false := by
  induction ls with
  | nil => exact ⟨rfl, rfl⟩
  | cons l ls ih =>
    cases ls with
    | nil =>
      refine ⟨goodT_of_no_nl (hnl l (List.mem_cons_self l [])), ?_⟩
      exact hst l (List.mem_cons_self l [])
    | cons l2 ls2 =>
      have ihr := ih (fun x hx => hst x (List.mem_cons_of_mem l hx))
        (fun x hx => hnl x (List.mem_cons_of_mem l hx))
      have hj : joinNl (l :: l2 :: ls2) = l ++ '\n' :: joinNl (l2 :: ls2) := rfl
      rw [hj]
      refine ⟨goodT_append_nl (hnl l (List.mem_cons_self l (l2 :: ls2))) ihr.2 ihr.1, ?_⟩
      cases l with
      | nil =>
        rw [List.nil_append, startsTab_cons]
        decide
      | cons c cs => exact hst (c :: cs) (List.mem_cons_self (c :: cs) (l2 :: ls2))

/-- Helper: dropping a prefix keeps the invariant. -/
theorem goodT_dropWhile {p : Char → Bool} {l : Str} (h : goodT l = true) :
    goodT (l.dropWhile p) = true := by
  induction l with
  | nil => exact h
  | cons c rest ih =>
    rw [List.dropWhile_cons]
    split
    · exact ih (goodT_tail h)
    · exact h

/-- Helper: after dropping leading whitespace a string cannot start with a tab,
since the tab is itself whitespace. -/
theorem startsTab_dropWhile_space (l : Str) :
    startsTab (l.dropWhile pyIsSpace) = false := by
  induction l with
  | nil => rfl
  | cons c rest ih =>
    rw [List.dropWhile_cons]
    split
    · exact ih
    · rename_i hns
      rw [startsTab_cons]
      by_cases hc : c = '\t'
      · subst hc
        exact absurd (by decide) hns
      · simp [hc]

/-- Helper: the invariant restricts to an initial segment. -/
theorem goodT_append_left {a b : Str} (h : goodT (a ++ b) = true) :
    goodT a = true := by
  induction a with
  | nil => rfl
  | cons c a' ih =>
    simp only [List.cons_append, goodT, Bool.and_eq_true] at h
    simp only [goodT, Bool.and_eq_true]
    refine ⟨?_, ih h.2⟩
    cases a' with
    | nil => simp [startsTab]
    | cons d a'' => exact h.1

/-- Helper: the right strip of a list is one of its initial segments. -/
theorem rstrip_prefix (p : Char → Bool) (l : Str) :
    ((l.reverse.dropWhile p).reverse) <+: l := by
  have h1 : l.reverse.dropWhile p <:+ l.reverse := List.dropWhile_suffix p
  have h2 := List.reverse_prefix.mpr h1
  rwa [List.reverse_reverse] at h2

/-- Helper: stripping preserves the invariant and yields a string that does
not start with a tab. -/
theorem pyStrip_good {l : Str} (hg : goodT l = true) :
    goodT (pyStrip l) = true ∧ startsTab (pyStrip l) = false := by
  unfold pyStrip
  have hg1 : goodT (l.dropWhile pyIsSpace) = true := goodT_dropWhile hg
  have hs1 : startsTab (l.dropWhile pyIsSpace) = false := startsTab_dropWhile_space l
  obtain ⟨t, ht⟩ := rstrip_prefix pyIsSpace (l.dropWhile pyIsSpace)
  rw [← ht] at hg1 hs1
  exact ⟨goodT_append_left hg1, startsTab_append hs1⟩

/-- Helper: the first line of a string starts with a tab exactly when the
string itself does. -/
theorem startsTab_headLine (s : Str) :
    startsTab ((pyLines s).headD []) = startsTab s := by
  cases s with
  | nil => rfl
  | cons c rest =>
    simp only [pyLines, splitOnChar]
    by_cases hc : (c == '\n') = true
    · rw [if_pos hc]
      simp only [List.headD_cons]
      have hcc : c = '\n' := by simpa using hc
      subst hcc
      rfl
    · rw [if_neg hc]
      rcases hsp : splitOnChar '\n' rest with _ | ⟨l0, ls⟩
      · exact absurd hsp (splitOnChar_ne_nil '\n' rest)
      · rfl

/-- Helper: in a good string no line after the first starts with a tab. -/
theorem tailLines_no_tab (s : Str) (hg : goodT s = true) :
    ∀ l ∈ (pyLines s).tail, startsTab l = false := by
  induction s with
  | nil =>
    intro l hl
    simp [pyLines, splitOnChar] at hl
  | cons c rest ih =>
    intro l hl
    simp only [pyLines, splitOnChar] at hl
    by_cases hc : (c == '\n') = true
    · rw [if_pos hc] at hl
      simp only [List.tail_cons] at hl
      have hcc : c = '\n' := by simpa using hc
      subst hcc
      have hg' : startsTab rest = false ∧ goodT rest = true := by
        simpa [goodT] using hg
      rcases hpl : splitOnChar '\n' rest with _ | ⟨l0, ls⟩
      · exact absurd hpl (splitOnChar_ne_nil '\n' rest)
      · rw [hpl] at hl
        rcases List.mem_cons.mp hl with rfl | hl2
        · have hh := startsTab_headLine rest
          simp only [pyLines] at hh
          rw [hpl] at hh
          simp only [List.headD_cons] at hh
          rw [hh]
          exact hg'.1
        · refine ih hg'.2 l ?_
          simp only [pyLines]
          rw [hpl]
          exact hl2
    · rw [if_neg hc] at hl
      rcases hsp : splitOnChar '\n' rest with _ | ⟨l0, ls⟩
      · exact absurd hsp (splitOnChar_ne_nil '\n' rest)
      · rw [hsp] at hl
        simp only [List.tail_cons] at hl
        refine ih (goodT_tail hg) l ?_
        simp only [pyLines]
        rw [hsp]
        exact hl

/-- Helper: in a good string that does not start with a tab, no line at all
starts with a tab. -/
theorem allLines_no_tab {s : Str} (hg : goodT s = true) (hs : startsTab s = false) :
    ∀ l ∈ pyLines s, startsTab l = false := by
  intro l hl
  rcases hpl : pyLines s with _ | ⟨l0, ls⟩
  · exact absurd hpl (splitOnChar_ne_nil '\n' s)
  · rw [hpl] at hl
    rcases List.mem_cons.mp hl with rfl | hl2
    · have hh := startsTab_headLine s
      rw [hpl] at hh
      simp only [List.headD_cons] at hh
      rw [hh]
      exact hs
    · exact tailLines_no_tab s hg l (by rw [hpl]; exact hl2)

/-- Claim C10: no line of the post-filter's output begins with a tab
character - the final line filter removes every tab-initial line, joining the
survivors cannot create a newline-tab pair, and the final strip only shortens
the document at its ends. -/
theorem c10_no_tab_lines (text : Str) :
    (pyLines (filter_unwanted_md text)).all (fun l => !startsTab l) = true := by
  rw [List.all_eq_true]
  intro l hl
  simp only [filter_unwanted_md] at hl
  generalize scanSub blankMatcher (subCaretTab (subCaretTab (scanSub themeMatcher
    (scanSub versionMatcher (scanSub (eslintMatcher (str "/* eslint-enable"))
      (scanSub (eslintMatcher (str "/* eslint-disable")) text)))))) = t6 at hl
  have hfl : ∀ x ∈ (pyLines t6).filter (fun l => !startsTab l),
      startsTab x = false := by
    intro x hx
    have hx2 := List.of_mem_filter hx
    simpa using hx2
  have hnl : ∀ x ∈ (pyLines t6).filter (fun l => !startsTab l), '\n' ∉ x := by
    intro x hx
    exact splitOnChar_no_sep '\n' t6 x (List.mem_of_mem_filter hx)
  obtain ⟨hg, hs⟩ := joinNl_good _ hfl hnl
  obtain ⟨hg2, hs2⟩ := pyStrip_good hg
  have hres := allLines_no_tab hg2 hs2 l hl
  simp [hres]

end ScrapeV6
